import Mathlib

/-!
Fragment container of the bitmap index (`src/index/fragment_container.go`).

A shallow embedding of the fragment container: the registry of fragments, the
per-fragment handle cache, handle allocation, the `union` / `intersect` folds
and the serve loop.

Conventions of the embedding.

* `uint64` values are natural numbers; every operation that can overflow is
  followed by an explicit `% 2 ^ 64`.
* Go's `int` (the slice number) is an integer; the conversion `uint64(x)` is
  `uint64OfInt`.
* A Go interface value that may be `nil` is an `Option`; `IBitmap` is
  `Option Bitmap`.
* A run-time panic is the `error` branch of `Except RuntimePanic`.  The `error`
  values returned by the container operations are ordinary results
  (`Option GoError`), not panics.
* `time.Now()` is an input: every function that reads the clock takes the
  reading as an argument.
-/

namespace Index

/-! ## Machine integers -/

/-- The conversion `uint64(x)` of a Go `int`. -/
def uint64OfInt (x : Int) : Nat := (x % (2 : Int) ^ 64).toNat

/-- The wrap-around of a signed 64-bit result (`time.Duration` is an `int64`). -/
def wrapInt64 (x : Int) : Int := (x + (2 : Int) ^ 63) % (2 : Int) ^ 64 - (2 : Int) ^ 63

/-! ## Data model -/

/-- The type `SUUID` of the `util` package: the registry key. -/
abbrev SUUID := Nat

/-- The type `BitmapHandle`, a `uint64`. -/
abbrev BitmapHandle := Nat

/-- Modelled from the spec: the bitmap value type of the Bitmap Algebra (the
concrete type behind `IBitmap`, declared outside `fragment_container.go`), "an
immutable/clonable bitmap value type": the finite set of its set bit
positions. -/
abbrev Bitmap := Finset Nat

/-- The interface type `IBitmap`; `none` is the `nil` interface value. -/
abbrev IBitmap := Option Bitmap

/-- Modelled from the spec: `NewEmptyBitmap() → bitmap` (`NewBitmap` in the
code, declared outside `fragment_container.go`): the bitmap with no bit set. -/
def NewBitmap : Bitmap := ∅

/-- Modelled from the spec: `Union(a, b) → bitmap` of the Bitmap Algebra. -/
def Union (a b : Bitmap) : Bitmap := a ∪ b

/-- Modelled from the spec: `Intersection(a, b) → bitmap` of the Bitmap
Algebra. -/
def Intersection (a b : Bitmap) : Bitmap := a ∩ b

/-- Modelled from the spec: `Clone(bitmap) → bitmap` of the Bitmap Algebra: a
bitmap with the same set bits. -/
def Clone (a : Bitmap) : Bitmap := a

/-- Modelled from the spec: bitmap `.Count() → uint64`, the "set-bit
cardinality". -/
def Bitmap.Count (a : Bitmap) : Nat := a.card

/-- The run-time panics the embedded code can raise. -/
inductive RuntimePanic where
  /-- A failed type assertion `x.(T)` (interface conversion). -/
  | interfaceConversion
  /-- A nil dereference: a method called on a `nil` interface value. -/
  | nilDereference
  deriving DecidableEq, Repr

deriving instance DecidableEq for Except

/-- A Go `error` value made by `errors.New`. -/
inductive GoError where
  | New (text : String)
  deriving DecidableEq, Repr

/-! ## The handle cache (`lru.Cache`) -/

/-- Modelled from the spec: the Handle Cache (`lru.Cache` of
`github.com/golang/groupcache/lru`, not under `src/`): "fixed capacity",
"least-recently-used eviction".  `ll` lists the entries from the most recently
used to the least recently used; `MaxEntries = 0` means no limit. -/
structure Cache where
  MaxEntries : Nat
  ll : List (BitmapHandle × IBitmap)
  deriving DecidableEq

/-- Modelled from the spec: `lru.New(maxEntries)`, an empty cache. -/
def Cache.New (maxEntries : Nat) : Cache := { MaxEntries := maxEntries, ll := [] }

/-- The entry stored under `key`, if any (the cache's key → element map). -/
def Cache.find (c : Cache) (key : BitmapHandle) : Option IBitmap :=
  (c.ll.find? (fun e => e.1 == key)).map (fun e => e.2)

/-- The entries other than the one stored under `key`. -/
def Cache.others (c : Cache) (key : BitmapHandle) : List (BitmapHandle × IBitmap) :=
  c.ll.filter (fun e => !(e.1 == key))

/-- Modelled from the spec: `Get(handle) → (value, found)`, which "marks the
entry as recently used on a hit"; a miss returns the `nil` value and
`found = false` and leaves the cache as it is. -/
def Cache.Get (c : Cache) (key : BitmapHandle) : (IBitmap × Bool) × Cache :=
  match c.find key with
  | some value => ((value, true), { c with ll := (key, value) :: c.others key })
  | none => ((none, false), c)

/-- Modelled from the spec: `Add(handle, value)` "always succeeds, evicting the
least-recently-used entry if at capacity"; adding under a key already present
replaces its value and marks it as recently used. -/
def Cache.Add (c : Cache) (key : BitmapHandle) (value : IBitmap) : Cache :=
  match c.find key with
  | some _ => { c with ll := (key, value) :: c.others key }
  | none =>
    let ll := (key, value) :: c.ll
    if c.MaxEntries ≠ 0 ∧ ll.length > c.MaxEntries then
      { c with ll := ll.dropLast }
    else
      { c with ll := ll }

/-! ## Shard storage (`Pilosa` interface) -/

/-- Modelled from the spec: the Shard Storage behind the interface `Pilosa`
(its implementation `NewGeneral(db, slice, NewMemoryStorage())` is not under
`src/`): the canonical bitmaps by numeric identifier. -/
structure Pilosa where
  db : String
  slice : Int
  rows : List (Nat × Bitmap)
  deriving DecidableEq

/-- Modelled from the spec: `NewGeneral(db, slice, NewMemoryStorage())`, a
storage holding no bitmap yet. -/
def NewGeneral (db : String) (slice : Int) : Pilosa := { db := db, slice := slice, rows := [] }

/-- The canonical bitmap of `id` (empty when nothing was set). -/
def Pilosa.row (s : Pilosa) (id : Nat) : Bitmap :=
  ((s.rows.find? (fun e => e.1 == id)).map (fun e => e.2)).getD ∅

/-- Modelled from the spec: `Get(numeric identifier) → bitmap value`. -/
def Pilosa.Get (s : Pilosa) (id : Nat) : IBitmap := some (s.row id)

/-- Modelled from the spec: `SetBit(numeric identifier, bit position) → bool
(changed)`: sets the bit in the canonical bitmap and tells whether its value
changed. -/
def Pilosa.SetBit (s : Pilosa) (id : Nat) (bit_pos : Nat) : Bool × Pilosa :=
  (decide (bit_pos ∉ s.row id),
    { s with rows := (id, insert bit_pos (s.row id)) :: s.rows.filter (fun e => !(e.1 == id)) })

/-! ## Commands and fragments -/

/-- Modelled from the spec: the Command Protocol, "a closed set of request
variants (Empty, Intersect, Union, Get, Count, GetBytes, FromBytes, SetBit)",
built by `NewEmpty`, `NewIntersect`, ... (declared outside
`fragment_container.go`). -/
inductive Command where
  | Empty
  | Intersect (bh : List BitmapHandle)
  | Union (bh : List BitmapHandle)
  | Get (bitmap_id : Nat)
  | Count (bitmap : BitmapHandle)
  | GetBytes (bh : BitmapHandle)
  | FromBytes (bytes : List Nat)
  | SetBit (bitmap_id : Nat) (pos : Nat)
  deriving DecidableEq, Repr

/-- The struct `Fragment`. -/
structure Fragment where
  requestChan : List Command
  fragment_id : SUUID
  impl : Pilosa
  counter : Nat
  slice : Int
  cache : Cache
  mesg_count : Nat
  mesg_time : Int
  deriving DecidableEq

/-- The struct `FragmentContainer`: the map `fragments`, as an association
list with at most one entry per key in use (`GetFragment` reads the first). -/
structure FragmentContainer where
  fragments : List (SUUID × Fragment)
  deriving DecidableEq

/-- Go function `NewFragmentContainer`. -/
def NewFragmentContainer : FragmentContainer := { fragments := [] }

/-- Go function `NewFragment`: an empty request queue (of capacity 64), a
cache of 10000 entries, a fresh storage, counter 0. -/
def NewFragment (frag_id : SUUID) (db : String) (slice : Int) (_frame : String) : Fragment :=
  { requestChan := []
    fragment_id := frag_id
    impl := NewGeneral db slice
    counter := 0
    slice := slice
    cache := Cache.New 10000
    mesg_count := 0
    mesg_time := 0 }

/-- Go function `Fragment.getBitmap`: the cache lookup followed by the
unconditional type assertion `bm.(IBitmap)`, which panics when the looked up
value is `nil` (in particular on every miss). -/
def Fragment.getBitmap (self : Fragment) (bitmap : BitmapHandle) :
    Except RuntimePanic ((Bitmap × Bool) × Fragment) :=
  match self.cache.Get bitmap with
  | ((some bm, ok), cache) => .ok ((bm, ok), { self with cache := cache })
  | ((none, _), _) => .error .interfaceConversion

/-- Go function `Fragment.nextHandle`; `now` is the reading
`time.Now().UTC().UnixNano()` converted to `uint64`. -/
def Fragment.nextHandle (now : Nat) (self : Fragment) : BitmapHandle × Fragment :=
  let millis := now % 2 ^ 64
  let id := (millis <<< (64 - 41)) % 2 ^ 64
  let id := id ||| ((uint64OfInt self.slice <<< (64 - 41 - 13)) % 2 ^ 64)
  let id := id ||| (self.counter % 1024)
  (id, { self with counter := (self.counter + 1) % 2 ^ 64 })

/-- Go function `Fragment.AllocHandle`. -/
def Fragment.AllocHandle (now : Nat) (self : Fragment) (bm : IBitmap) : BitmapHandle × Fragment :=
  let (handle, self) := self.nextHandle now
  (handle, { self with cache := self.cache.Add handle bm })

/-- Go function `Fragment.NewHandle`. -/
def Fragment.NewHandle (now : Nat) (self : Fragment) (bitmap_id : Nat) : BitmapHandle × Fragment :=
  let bm := self.impl.Get bitmap_id
  self.AllocHandle now bm

/-- The loop of `Fragment.union`: `i` is the loop index, `result` the running
accumulator. -/
def Fragment.unionLoop :
    Fragment → Bitmap → Nat → List BitmapHandle → Except RuntimePanic (Bitmap × Fragment)
  | self, result, _, [] => .ok (result, self)
  | self, result, i, id :: rest =>
    match self.getBitmap id with
    | .error p => .error p
    | .ok ((bm, _), self) =>
      if i = 0 then
        unionLoop self bm (i + 1) rest
      else
        unionLoop self (Union result bm) (i + 1) rest

/-- Go function `Fragment.union`. -/
def Fragment.union (now : Nat) (self : Fragment) (bitmaps : List BitmapHandle) :
    Except RuntimePanic (BitmapHandle × Fragment) :=
  match self.unionLoop NewBitmap 0 bitmaps with
  | .error p => .error p
  | .ok (result, self) => .ok (self.AllocHandle now (some result))

/-- The loop of `Fragment.intersect`: `result` starts as the `nil` interface
value (`var result IBitmap`). -/
def Fragment.intersectLoop :
    Fragment → IBitmap → Nat → List BitmapHandle → Except RuntimePanic (IBitmap × Fragment)
  | self, result, _, [] => .ok (result, self)
  | self, result, i, id :: rest =>
    match self.getBitmap id with
    | .error p => .error p
    | .ok ((bm, _), self) =>
      if i = 0 then
        intersectLoop self (some (Clone bm)) (i + 1) rest
      else
        match result with
        | some r => intersectLoop self (some (Intersection r bm)) (i + 1) rest
        | none => .error .nilDereference

/-- Go function `Fragment.intersect`. -/
def Fragment.intersect (now : Nat) (self : Fragment) (bitmaps : List BitmapHandle) :
    Except RuntimePanic (BitmapHandle × Fragment) :=
  match self.intersectLoop none 0 bitmaps with
  | .error p => .error p
  | .ok (result, self) => .ok (self.AllocHandle now result)

/-- The spec's words for the result of `union`: "the left-to-right fold of the
bitmap union over the listed handles' cached bitmaps", "the empty bitmap for
the empty list, the first handle's own bitmap for a one-element list". -/
def unionFold : List Bitmap → Bitmap
  | [] => ∅
  | first :: rest => rest.foldl (fun acc bm => acc ∪ bm) first

/-- The spec's words for the result of `intersect` on a non-empty list: "the
left-to-right fold of bitmap intersection starting from a clone of the first
handle's bitmap". -/
def intersectFold (first : Bitmap) (rest : List Bitmap) : Bitmap :=
  rest.foldl (fun acc bm => acc ∩ bm) first

/-- Consecutive calls of `nextHandle`, one per clock reading of the list: the
handles in the order they were returned, and the fragment afterwards. -/
def Fragment.nextHandles : Fragment → List Nat → List BitmapHandle × Fragment
  | self, [] => ([], self)
  | self, now :: rest =>
    let (handle, self) := self.nextHandle now
    let (handles, self) := nextHandles self rest
    (handle :: handles, self)

/-- Consecutive calls of `AllocHandle`, one per pair of a clock reading and a
bitmap value: the handles in the order they were returned, and the fragment
afterwards. -/
def Fragment.AllocHandles : Fragment → List (Nat × IBitmap) → List BitmapHandle × Fragment
  | self, [] => ([], self)
  | self, (now, bm) :: rest =>
    let (handle, self) := self.AllocHandle now bm
    let (handles, self) := AllocHandles self rest
    (handle :: handles, self)

/-! ## The serve loop -/

/-- What the serve loop takes from outside this file while it serves the
commands of its queue; the index is the position of the command among those
served. -/
structure World where
  /-- The clock reading `time.Now()` seen by `nextHandle` while the command is
  executed. -/
  now : Nat → Nat
  /-- The duration `time.Since(start)` measured around the command. -/
  delta : Nat → Int
  /-- Modelled from the spec: bitmap `.ToBytes() → bytes`. -/
  ToBytes : Bitmap → List Nat
  /-- Modelled from the spec: `FromBytes(bytes) → bitmap`. -/
  FromBytes : List Nat → IBitmap

/-- The dynamically typed `answer` of a `Result`. -/
inductive Answer where
  | handle (h : BitmapHandle)
  | count (n : Nat)
  | bytes (b : List Nat)
  | bool (b : Bool)
  deriving DecidableEq, Repr

/-- The struct `Result{answer, delta}` sent on a command's response channel. -/
structure Result where
  answer : Answer
  exec_time : Int
  deriving DecidableEq

/-- Modelled from the spec: `Execute(fragment) → answer` of the Command
Protocol (declared outside `fragment_container.go`), which "dispatches to the
relevant Fragment method". -/
def Command.Execute (w : World) (i : Nat) (self : Command) (f : Fragment) :
    Except RuntimePanic (Answer × Fragment) :=
  match self with
  | .Empty =>
    let (h, f) := f.AllocHandle (w.now i) (some NewBitmap)
    .ok (.handle h, f)
  | .Intersect bh =>
    match f.intersect (w.now i) bh with
    | .error p => .error p
    | .ok (h, f) => .ok (.handle h, f)
  | .Union bh =>
    match f.union (w.now i) bh with
    | .error p => .error p
    | .ok (h, f) => .ok (.handle h, f)
  | .Get bitmap_id =>
    let (h, f) := f.NewHandle (w.now i) bitmap_id
    .ok (.handle h, f)
  | .Count bitmap =>
    match f.getBitmap bitmap with
    | .error p => .error p
    | .ok ((bm, _), f) => .ok (.count bm.Count, f)
  | .GetBytes bh =>
    match f.getBitmap bh with
    | .error p => .error p
    | .ok ((bm, _), f) => .ok (.bytes (w.ToBytes bm), f)
  | .FromBytes bytes =>
    let (h, f) := f.AllocHandle (w.now i) (w.FromBytes bytes)
    .ok (.handle h, f)
  | .SetBit bitmap_id pos =>
    let (changed, impl) := f.impl.SetBit bitmap_id pos
    .ok (.bool changed, { f with impl := impl })

/-- One iteration of the loop of `Fragment.ServeFragment`, after `req` was
received from the request channel: the `Result` it sends on the command's
response channel, and the fragment afterwards. -/
def Fragment.serve (w : World) (i : Nat) (self : Fragment) (req : Command) :
    Except RuntimePanic (Result × Fragment) :=
  let self := { self with mesg_count := (self.mesg_count + 1) % 2 ^ 64 }
  match req.Execute w i self with
  | .error p => .error p
  | .ok (answer, self) =>
    let delta := w.delta i
    let self := { self with mesg_count := (self.mesg_count + 1) % 2 ^ 64 }
    let self := { self with mesg_time := wrapInt64 (self.mesg_time + delta) }
    .ok ({ answer := answer, exec_time := delta }, self)

/-- The loop of `Fragment.ServeFragment` over the commands waiting in the
request channel, in the order the channel delivers them; the loop then blocks
on the empty channel.  A panic ends the loop (and the process). -/
def Fragment.serveLoop (w : World) :
    Nat → List Command → Fragment → Except RuntimePanic (List Result × Fragment)
  | _, [], self => .ok ([], self)
  | i, req :: rest, self =>
    match Fragment.serve w i { self with requestChan := rest } req with
    | .error p => .error p
    | .ok (r, self) =>
      match serveLoop w (i + 1) rest self with
      | .error p => .error p
      | .ok (rs, self) => .ok (r :: rs, self)

/-- Go function `Fragment.ServeFragment`, run until its request channel is
empty. -/
def Fragment.ServeFragment (w : World) (self : Fragment) :
    Except RuntimePanic (List Result × Fragment) :=
  Fragment.serveLoop w 0 self.requestChan self

/-! ## The container operations -/

/-- Go function `FragmentContainer.GetFragment`: `some` fragment when found,
`none` when not (`found = false`). -/
def FragmentContainer.GetFragment (self : FragmentContainer) (frag_id : SUUID) :
    Option Fragment :=
  (self.fragments.find? (fun e => e.1 == frag_id)).map (fun e => e.2)

/-- The map assignment `self.fragments[id] = f`. -/
def FragmentContainer.store (self : FragmentContainer) (id : SUUID) (f : Fragment) :
    FragmentContainer :=
  { fragments := (id, f) :: self.fragments.filter (fun e => !(e.1 == id)) }

/-- Go function `FragmentContainer.AddFragment` (the serve loop it starts is
`Fragment.ServeFragment`). -/
def FragmentContainer.AddFragment (self : FragmentContainer) (frame : String) (db : String)
    (slice : Int) (id : SUUID) : FragmentContainer :=
  let f := NewFragment id db slice frame
  self.store id f

/-- The loop of `Fragment.ServeFragment` from the moment `request` was sent
until its `Result` is sent back: the commands `pending` before it in the
request channel are served first, in order, then `request` itself. -/
def Fragment.serveUntil (w : World) :
    Nat → List Command → Command → Fragment → Except RuntimePanic (Result × Fragment)
  | i, [], request, self => Fragment.serve w i { self with requestChan := [] } request
  | i, req :: rest, request, self =>
    match Fragment.serve w i { self with requestChan := rest ++ [request] } req with
    | .error p => .error p
    | .ok (_, self) => serveUntil w (i + 1) rest request self

/-- The two statements shared by the eight operations on a hit,
`fragment.requestChan <- request` and `request.Response()`: the request is
appended to the queue, and the caller blocks until the fragment's loop has
sent the request's `Result`.  The fragment is the one the map points to, so
the container sees its new state. -/
def FragmentContainer.roundTrip (w : World) (self : FragmentContainer) (frag_id : SUUID)
    (fragment : Fragment) (request : Command) :
    Except RuntimePanic (Result × FragmentContainer) :=
  let pending := fragment.requestChan
  let fragment := { fragment with requestChan := pending ++ [request] }
  match Fragment.serveUntil w 0 pending request fragment with
  | .error p => .error p
  | .ok (response, fragment) => .ok (response, self.store frag_id fragment)

/-- The type assertion `answer.(BitmapHandle)`. -/
def Answer.toHandle : Answer → Except RuntimePanic BitmapHandle
  | .handle h => .ok h
  | _ => .error .interfaceConversion

/-- The type assertion `answer.(uint64)`. -/
def Answer.toUint64 : Answer → Except RuntimePanic Nat
  | .count n => .ok n
  | _ => .error .interfaceConversion

/-- The type assertion `answer.([]byte)`. -/
def Answer.toBytes : Answer → Except RuntimePanic (List Nat)
  | .bytes b => .ok b
  | _ => .error .interfaceConversion

/-- The type assertion `answer.(bool)`. -/
def Answer.toBool : Answer → Except RuntimePanic Bool
  | .bool b => .ok b
  | _ => .error .interfaceConversion

/-- Go function `FragmentContainer.Empty`. -/
def FragmentContainer.Empty (w : World) (self : FragmentContainer) (frag_id : SUUID) :
    Except RuntimePanic ((BitmapHandle × Option GoError) × FragmentContainer) :=
  match self.GetFragment frag_id with
  | some fragment =>
    let request := Command.Empty
    match self.roundTrip w frag_id fragment request with
    | .error p => .error p
    | .ok (response, self) =>
      match response.answer.toHandle with
      | .error p => .error p
      | .ok answer => .ok ((answer, none), self)
  | none => .ok ((0, some (GoError.New "Invalid Bitmap Handle")), self)

/-- Go function `FragmentContainer.Intersect`. -/
def FragmentContainer.Intersect (w : World) (self : FragmentContainer) (frag_id : SUUID)
    (bh : List BitmapHandle) :
    Except RuntimePanic ((BitmapHandle × Option GoError) × FragmentContainer) :=
  match self.GetFragment frag_id with
  | some fragment =>
    let request := Command.Intersect bh
    match self.roundTrip w frag_id fragment request with
    | .error p => .error p
    | .ok (response, self) =>
      match response.answer.toHandle with
      | .error p => .error p
      | .ok answer => .ok ((answer, none), self)
  | none => .ok ((0, some (GoError.New "Invalid Bitmap Handle")), self)

/-- Go function `FragmentContainer.Union`. -/
def FragmentContainer.Union (w : World) (self : FragmentContainer) (frag_id : SUUID)
    (bh : List BitmapHandle) :
    Except RuntimePanic ((BitmapHandle × Option GoError) × FragmentContainer) :=
  match self.GetFragment frag_id with
  | some fragment =>
    let request := Command.Union bh
    match self.roundTrip w frag_id fragment request with
    | .error p => .error p
    | .ok (response, self) =>
      match response.answer.toHandle with
      | .error p => .error p
      | .ok answer => .ok ((answer, none), self)
  | none => .ok ((0, some (GoError.New "Invalid Bitmap Handle")), self)

/-- Go function `FragmentContainer.Get`. -/
def FragmentContainer.Get (w : World) (self : FragmentContainer) (frag_id : SUUID)
    (bitmap_id : Nat) :
    Except RuntimePanic ((BitmapHandle × Option GoError) × FragmentContainer) :=
  match self.GetFragment frag_id with
  | some fragment =>
    let request := Command.Get bitmap_id
    match self.roundTrip w frag_id fragment request with
    | .error p => .error p
    | .ok (response, self) =>
      match response.answer.toHandle with
      | .error p => .error p
      | .ok answer => .ok ((answer, none), self)
  | none => .ok ((0, some (GoError.New "Invalid Bitmap Handle")), self)

/-- Go function `FragmentContainer.Count`. -/
def FragmentContainer.Count (w : World) (self : FragmentContainer) (frag_id : SUUID)
    (bitmap : BitmapHandle) :
    Except RuntimePanic ((Nat × Option GoError) × FragmentContainer) :=
  match self.GetFragment frag_id with
  | some fragment =>
    let request := Command.Count bitmap
    match self.roundTrip w frag_id fragment request with
    | .error p => .error p
    | .ok (response, self) =>
      match response.answer.toUint64 with
      | .error p => .error p
      | .ok answer => .ok ((answer, none), self)
  | none => .ok ((0, some (GoError.New "Invalid Bitmap Handle")), self)

/-- Go function `FragmentContainer.GetBytes`; the `nil` slice is the empty list. -/
def FragmentContainer.GetBytes (w : World) (self : FragmentContainer) (frag_id : SUUID)
    (bh : BitmapHandle) :
    Except RuntimePanic ((List Nat × Option GoError) × FragmentContainer) :=
  match self.GetFragment frag_id with
  | some fragment =>
    let request := Command.GetBytes bh
    match self.roundTrip w frag_id fragment request with
    | .error p => .error p
    | .ok (response, self) =>
      match response.answer.toBytes with
      | .error p => .error p
      | .ok answer => .ok ((answer, none), self)
  | none => .ok (([], some (GoError.New "Invalid Bitmap Handle")), self)

/-- Go function `FragmentContainer.FromBytes`. -/
def FragmentContainer.FromBytes (w : World) (self : FragmentContainer) (frag_id : SUUID)
    (bytes : List Nat) :
    Except RuntimePanic ((BitmapHandle × Option GoError) × FragmentContainer) :=
  match self.GetFragment frag_id with
  | some fragment =>
    let request := Command.FromBytes bytes
    match self.roundTrip w frag_id fragment request with
    | .error p => .error p
    | .ok (response, self) =>
      match response.answer.toHandle with
      | .error p => .error p
      | .ok answer => .ok ((answer, none), self)
  | none => .ok ((0, some (GoError.New "Invalid Bitmap Handle")), self)

/-- Go function `FragmentContainer.SetBit`. -/
def FragmentContainer.SetBit (w : World) (self : FragmentContainer) (frag_id : SUUID)
    (bitmap_id : Nat) (pos : Nat) :
    Except RuntimePanic ((Bool × Option GoError) × FragmentContainer) :=
  match self.GetFragment frag_id with
  | some fragment =>
    let request := Command.SetBit bitmap_id pos
    match self.roundTrip w frag_id fragment request with
    | .error p => .error p
    | .ok (response, self) =>
      match response.answer.toBool with
      | .error p => .error p
      | .ok answer => .ok ((answer, none), self)
  | none => .ok ((false, some (GoError.New "Invalid Bitmap Handle")), self)

/-! ## Concrete fragments used in the examples -/

/-- A fragment as `NewFragment` makes it, for slice 3. -/
def freshFragment : Fragment := NewFragment 1 "db" 3 "frame"

/-- A clock reading (nanoseconds since the epoch). -/
def clockA : Nat := 1400000000000000000

/-- The fresh fragment after two allocations at `clockA`: the bitmaps
`{1, 2}` and `{2, 3}` are cached under the handles `5372449108801883136` and
`5372449108801883137`. -/
def twoHandles : Fragment :=
  (freshFragment.AllocHandles [(clockA, some {1, 2}), (clockA, some {2, 3})]).2

/-- The arguments of `n` further allocations of an empty bitmap, all made at
the same clock reading `clockA`. -/
def fillers (n : Nat) : List (Nat × IBitmap) := List.replicate n (clockA, some ∅)

/-- The fragment `twoHandles` after 1022 further allocations at the same clock
reading: 1024 allocations were made since `NewFragment`, the counter is 1024. -/
def wrappedFragment : Fragment := (twoHandles.AllocHandles (fillers 1022)).2

/-- A fragment whose counter holds the largest `uint64` value. -/
def lastCounter : Fragment := { freshFragment with counter := 2 ^ 64 - 1 }

/-- An environment of the serve loop: a constant clock, unit durations, and the
sorted list of set bits as the byte encoding. -/
def sampleWorld : World :=
  { now := fun _ => clockA
    delta := fun _ => 1
    ToBytes := fun bm => bm.sort (fun a b => a ≤ b)
    FromBytes := fun bytes => some bytes.toFinset }

/-- A container holding one fragment, registered under the id 7. -/
def oneFragment : FragmentContainer := NewFragmentContainer.AddFragment "frame" "db" 3 7

/-- The container `oneFragment` after `Intersect` was called on its fragment
with the empty handle list. -/
def afterEmptyIntersect : FragmentContainer :=
  match oneFragment.Intersect sampleWorld 7 [] with
  | .ok (_, container) => container
  | .error _ => oneFragment

/-- The fragment `twoHandles` after `intersect` was called with the empty
handle list. -/
def twoHandlesAndNil : Fragment :=
  match twoHandles.intersect clockA [] with
  | .ok (_, fragment) => fragment
  | .error _ => twoHandles

/-! ## Handle layout: auxiliary facts -/

/-- Reduction modulo a power of two goes through a bitwise or. -/
theorem or_mod_two_pow_aux (a b n : Nat) : (a ||| b) % 2 ^ n = a % 2 ^ n ||| b % 2 ^ n := by
  apply Nat.eq_of_testBit_eq
  intro i
  simp only [Nat.testBit_mod_two_pow, Nat.testBit_or]
  cases decide (i < n) <;> simp

/-- A left shift by `k` reduced modulo `2 ^ m` keeps the low `m - k` bits,
shifted. -/
theorem shl_mod_aux (x k m : Nat) (h : k ≤ m) :
    (x <<< k) % 2 ^ m = 2 ^ k * (x % 2 ^ (m - k)) := by
  rw [Nat.shiftLeft_eq, Nat.mul_comm x]
  conv_lhs => rw [show m = k + (m - k) by omega, Nat.pow_add]
  rw [Nat.mul_mod_mul_left]

/-- The handle returned by `nextHandle`, with the two shifts written as
products. -/
theorem nextHandle_fst (now : Nat) (f : Fragment) :
    (f.nextHandle now).1 =
      2 ^ 23 * (now % 2 ^ 41) ||| 2 ^ 10 * (uint64OfInt f.slice % 2 ^ 54) ||| f.counter % 1024 := by
  have h1 : ((now % 2 ^ 64) <<< (64 - 41)) % 2 ^ 64 = 2 ^ 23 * (now % 2 ^ 41) := by
    rw [shl_mod_aux _ _ _ (by norm_num)]
    have : now % 2 ^ 64 % 2 ^ (64 - (64 - 41)) = now % 2 ^ 41 := by
      norm_num
    rw [this]
  have h2 : (uint64OfInt f.slice <<< (64 - 41 - 13)) % 2 ^ 64
      = 2 ^ 10 * (uint64OfInt f.slice % 2 ^ 54) := by
    rw [shl_mod_aux _ _ _ (by norm_num)]
  simp only [Fragment.nextHandle, h1, h2]

/-- The fragment after `nextHandle`: the counter is incremented as a `uint64`.
-/
theorem nextHandle_snd (now : Nat) (f : Fragment) :
    (f.nextHandle now).2 = { f with counter := (f.counter + 1) % 2 ^ 64 } := rfl

/-- The low ten bits of a handle are the counter modulo 1024, whatever the
slice. -/
theorem nextHandle_mod_1024 (now : Nat) (f : Fragment) :
    (f.nextHandle now).1 % 1024 = f.counter % 1024 := by
  rw [nextHandle_fst, show (1024 : Nat) = 2 ^ 10 by norm_num, or_mod_two_pow_aux,
    or_mod_two_pow_aux]
  have e1 : 2 ^ 23 * (now % 2 ^ 41) % 2 ^ 10 = 0 := by omega
  have e2 : 2 ^ 10 * (uint64OfInt f.slice % 2 ^ 54) % 2 ^ 10 = 0 := by omega
  rw [e1, e2]
  simp

/-- For a slice number below `2 ^ 13` the three fields of a handle do not
overlap. -/
theorem nextHandle_layout (t s c : Nat) (f : Fragment) (hs : s < 2 ^ 13)
    (hslice : f.slice = (s : Int)) (hc : f.counter = c) :
    (f.nextHandle t).1 = 2 ^ 23 * (t % 2 ^ 41) + 2 ^ 10 * s + c % 1024 := by
  have hu : uint64OfInt f.slice % 2 ^ 54 = s := by
    rw [hslice]
    unfold uint64OfInt
    have : ((s : Int) % (2 : Int) ^ 64).toNat = s := by omega
    rw [this]
    omega
  have h1 : 2 ^ 10 * s + c % 1024 < 2 ^ 23 := by omega
  rw [nextHandle_fst, hu, hc, Nat.or_assoc,
    ← Nat.mul_add_lt_is_or (Nat.mod_lt _ (by norm_num)) s,
    ← Nat.mul_add_lt_is_or h1 (t % 2 ^ 41)]
  dsimp only [BitmapHandle]
  omega

/-- The handle depends on the fragment through its counter and slice only. -/
theorem Fragment.nextHandle_congr (now : Nat) (f g : Fragment) (hc : g.counter = f.counter)
    (hs : g.slice = f.slice) : (g.nextHandle now).1 = (f.nextHandle now).1 := by
  simp [Fragment.nextHandle, hc, hs]

/-- Equal timestamp fields, equal slices and counters equal modulo 1024 give
equal handles. -/
theorem Fragment.nextHandle_wrap (t1 t2 : Nat) (f g : Fragment)
    (ht : t1 % 2 ^ 41 = t2 % 2 ^ 41) (hs : g.slice = f.slice)
    (hc : g.counter % 1024 = f.counter % 1024) :
    (g.nextHandle t2).1 = (f.nextHandle t1).1 := by
  rw [nextHandle_fst, nextHandle_fst, ht, hs, hc]

/-- Every handle of a run of `nextHandle` calls carries the counter of its
call. -/
theorem nextHandles_mem (clocks : List Nat) :
    ∀ (f : Fragment) (h : BitmapHandle), h ∈ (f.nextHandles clocks).1 →
      ∃ k, k < clocks.length ∧ h % 1024 = (f.counter + k) % 1024 := by
  induction clocks with
  | nil => intro f h hh; simp [Fragment.nextHandles] at hh
  | cons t rest ih =>
    intro f h hh
    simp only [Fragment.nextHandles, List.mem_cons] at hh
    rcases hh with rfl | hh
    · exact ⟨0, by simp, by rw [nextHandle_mod_1024]; rfl⟩
    · obtain ⟨k, hk, e⟩ := ih _ h hh
      refine ⟨k + 1, by simpa using hk, ?_⟩
      rw [e, nextHandle_snd]
      simp only
      dsimp only [BitmapHandle] at *
      omega

/-- At most 1024 consecutive handles are pairwise distinct. -/
theorem nextHandles_nodup (clocks : List Nat) :
    ∀ (f : Fragment), clocks.length ≤ 1024 → (f.nextHandles clocks).1.Nodup := by
  induction clocks with
  | nil => intro f _; simp [Fragment.nextHandles]
  | cons t rest ih =>
    intro f hlen
    simp only [Fragment.nextHandles, List.nodup_cons]
    simp only [List.length_cons] at hlen
    refine ⟨?_, ih _ (by omega)⟩
    intro hmem
    obtain ⟨k, hk, e⟩ := nextHandles_mem rest _ _ hmem
    rw [nextHandle_mod_1024, nextHandle_snd] at e
    simp only at e
    dsimp only [BitmapHandle] at *
    omega

/-! ## Handle cache: auxiliary facts -/

/-- Removing the entry of `h` does not change the lookup of another key. -/
theorem find?_others (l : List (BitmapHandle × IBitmap)) (h k : BitmapHandle) (hk : k ≠ h) :
    (l.filter (fun e => !(e.1 == h))).find? (fun e => e.1 == k)
      = l.find? (fun e => e.1 == k) := by
  induction l with
  | nil => rfl
  | cons e rest ih =>
    by_cases he : e.1 = h
    · have h1 : (e.1 == h) = true := by simpa using he
      have h2 : (e.1 == k) = false := by
        simp only [beq_eq_false_iff_ne, ne_eq]
        exact fun h' => hk (h'.symm.trans he)
      rw [List.filter_cons, List.find?_cons]
      simp only [h1, h2, Bool.not_true]
      exact ih
    · have h1 : (e.1 == h) = false := by simpa using he
      rw [List.filter_cons]
      simp only [h1, Bool.not_false, if_true, List.find?_cons, ih]

/-- The entry at the front is the one found under its key. -/
theorem Cache.find_front (c : Cache) (k : BitmapHandle) (v : IBitmap)
    (rest : List (BitmapHandle × IBitmap)) :
    ({ c with ll := (k, v) :: rest } : Cache).find k = some v := by
  simp [Cache.find, List.find?_cons]

/-- Moving the entry of `h` to the front does not change the lookup of another
key. -/
theorem Cache.find_front_ne (c : Cache) (h k : BitmapHandle) (v : IBitmap) (hk : k ≠ h) :
    ({ c with ll := (h, v) :: c.others h } : Cache).find k = c.find k := by
  have hne : ¬ h = k := fun h' => hk h'.symm
  simp [Cache.find, Cache.others, List.find?_cons, hne, find?_others _ _ _ hk]

/-- The cache after a hit: the entry is moved to the front. -/
theorem Cache.Get_hit (c : Cache) (h : BitmapHandle) (v : IBitmap) (hf : c.find h = some v) :
    (c.Get h).2 = { c with ll := (h, v) :: c.others h } := by
  simp [Cache.Get, hf]

/-- A lookup changes the recency order only: every key resolves as before. -/
theorem Cache.find_Get (c : Cache) (h k : BitmapHandle) :
    (c.Get h).2.find k = c.find k := by
  unfold Cache.Get
  cases hf : c.find h with
  | none => rfl
  | some v =>
    by_cases hk : k = h
    · subst hk
      simp only [Cache.find_front, hf]
    · simp only [Cache.find_front_ne c h k v hk]

/-- A lookup does not change the capacity. -/
theorem Cache.MaxEntries_Get (c : Cache) (h : BitmapHandle) :
    (c.Get h).2.MaxEntries = c.MaxEntries := by
  unfold Cache.Get
  cases c.find h <;> rfl

/-- An `Add` does not change the capacity. -/
theorem Cache.MaxEntries_Add (c : Cache) (key : BitmapHandle) (value : IBitmap) :
    (c.Add key value).MaxEntries = c.MaxEntries := by
  unfold Cache.Add
  cases c.find key with
  | some v => rfl
  | none =>
    simp only
    split <;> rfl

/-- An `Add` grows the cache by at most one entry. -/
theorem Cache.length_Add_le (c : Cache) (key : BitmapHandle) (value : IBitmap) :
    (c.Add key value).ll.length ≤ c.ll.length + 1 := by
  unfold Cache.Add
  cases c.find key with
  | some v =>
    simp only [Cache.others, List.length_cons, Nat.add_le_add_iff_right]
    exact List.length_filter_le _ _
  | none =>
    simp only
    split
    · simp only [List.length_dropLast, List.length_cons]
      omega
    · simp

/-- After `Add`, the key resolves to the value just stored. -/
theorem Cache.find_Add_self (c : Cache) (k : BitmapHandle) (v : IBitmap) :
    (c.Add k v).find k = some v := by
  unfold Cache.Add
  cases hf : c.find k with
  | some v' => simp only [Cache.find_front]
  | none =>
    simp only
    split
    · rename_i hcap
      cases hl : c.ll with
      | nil => simp [hl] at hcap
      | cons e rest => simp [Cache.find, List.dropLast, List.find?_cons]
    · simp [Cache.find, List.find?_cons]

/-- While the cache is not full, an `Add` leaves the other keys as they are.
-/
theorem Cache.find_Add_of_room (c : Cache) (key k : BitmapHandle) (value : IBitmap)
    (hne : k ≠ key) (hroom : c.MaxEntries = 0 ∨ c.ll.length < c.MaxEntries) :
    (c.Add key value).find k = c.find k := by
  have hkey : (key == k) = false := by
    simp only [beq_eq_false_iff_ne, ne_eq]
    exact fun h' => hne h'.symm
  unfold Cache.Add
  cases hf : c.find key with
  | some v' => simp only [Cache.find_front_ne c key k value hne]
  | none =>
    simp only
    split
    · rename_i hfull
      simp only [List.length_cons] at hfull
      omega
    · simp only [Cache.find, List.find?_cons, hkey]

/-- An entry among the `front` most recently used ones survives an `Add` under
another key when the capacity exceeds the length of `front`. -/
theorem Cache.find_Add_of_recent (c : Cache) (key k : BitmapHandle) (value v : IBitmap)
    (front back : List (BitmapHandle × IBitmap)) (hll : c.ll = front ++ back)
    (hfront : (front.find? (fun e => e.1 == k)).map (fun e => e.2) = some v)
    (hcap : c.MaxEntries = 0 ∨ front.length < c.MaxEntries) (hne : k ≠ key) :
    (c.Add key value).find k = some v := by
  have hfind : c.find k = some v := by
    unfold Cache.find
    rw [hll, List.find?_append]
    cases hx : front.find? (fun e => e.1 == k) with
    | none => simp [hx] at hfront
    | some e => simpa [hx] using hfront
  have hkey : (key == k) = false := by
    simp only [beq_eq_false_iff_ne, ne_eq]
    exact fun h' => hne h'.symm
  unfold Cache.Add
  cases hf : c.find key with
  | some v' => simp only [Cache.find_front_ne c key k value hne, hfind]
  | none =>
    simp only
    split
    · rename_i hfull
      have hback : back ≠ [] := by
        intro hb
        rw [hll, hb] at hfull
        simp only [List.length_cons, List.append_nil] at hfull
        omega
      have hdrop : ((key, value) :: c.ll).dropLast = (key, value) :: (front ++ back.dropLast) := by
        rw [hll, List.dropLast_cons_of_ne_nil (by simp [hback]),
          List.dropLast_append_of_ne_nil _ hback]
      simp only [Cache.find, hdrop, List.find?_cons, hkey, List.find?_append]
      cases hx : front.find? (fun e => e.1 == k) with
      | none => simp [hx] at hfront
      | some e => simpa [hx] using hfront
    · simp only [Cache.find, List.find?_cons, hkey]
      exact hfind

/-! ## Fragment methods: auxiliary facts -/

/-- A handle cached with a bitmap is found. -/
theorem Fragment.getBitmap_hit (f : Fragment) (h : BitmapHandle) (bm : Bitmap)
    (hf : f.cache.find h = some (some bm)) :
    f.getBitmap h = .ok ((bm, true), { f with cache := (f.cache.Get h).2 }) := by
  simp [Fragment.getBitmap, Cache.Get, hf]

/-- The lookup of an absent handle panics. -/
theorem Fragment.getBitmap_miss (f : Fragment) (h : BitmapHandle)
    (hf : f.cache.find h = none) :
    f.getBitmap h = .error .interfaceConversion := by
  simp [Fragment.getBitmap, Cache.Get, hf]

/-- The lookup of a handle cached with the `nil` value panics. -/
theorem Fragment.getBitmap_nil (f : Fragment) (h : BitmapHandle)
    (hf : f.cache.find h = some none) :
    f.getBitmap h = .error .interfaceConversion := by
  simp [Fragment.getBitmap, Cache.Get, hf]

/-- The handle returned by `AllocHandle` is the one made by `nextHandle`. -/
theorem Fragment.AllocHandle_fst (now : Nat) (f : Fragment) (bm : IBitmap) :
    (f.AllocHandle now bm).1 = (f.nextHandle now).1 := rfl

/-- The counter after `AllocHandle`. -/
theorem Fragment.AllocHandle_counter (now : Nat) (f : Fragment) (bm : IBitmap) :
    (f.AllocHandle now bm).2.counter = (f.counter + 1) % 2 ^ 64 := rfl

/-- The slice number is not changed by `AllocHandle`. -/
theorem Fragment.AllocHandle_slice (now : Nat) (f : Fragment) (bm : IBitmap) :
    (f.AllocHandle now bm).2.slice = f.slice := rfl

/-- The cache after `AllocHandle`. -/
theorem Fragment.AllocHandle_cache (now : Nat) (f : Fragment) (bm : IBitmap) :
    (f.AllocHandle now bm).2.cache = f.cache.Add (f.nextHandle now).1 bm := rfl

/-- After `AllocHandle` the returned handle resolves to the stored value. -/
theorem Fragment.AllocHandle_find (now : Nat) (f : Fragment) (bm : IBitmap) :
    (f.AllocHandle now bm).2.cache.find (f.AllocHandle now bm).1 = some bm := by
  rw [Fragment.AllocHandle_cache, Fragment.AllocHandle_fst, Cache.find_Add_self]

/-- A run of `AllocHandle` calls advances the counter by its length and keeps
the slice. -/
theorem Fragment.AllocHandles_counter (mids : List (Nat × IBitmap)) :
    ∀ f : Fragment,
      (f.AllocHandles mids).2.counter % 1024 = (f.counter + mids.length) % 1024 ∧
      (f.AllocHandles mids).2.slice = f.slice := by
  induction mids with
  | nil => intro f; simp [Fragment.AllocHandles]
  | cons m rest ih =>
    intro f
    obtain ⟨now, bm⟩ := m
    obtain ⟨h1, h2⟩ := ih (f.AllocHandle now bm).2
    simp only [Fragment.AllocHandles, List.length_cons]
    rw [h1, h2, Fragment.AllocHandle_counter, Fragment.AllocHandle_slice]
    refine ⟨?_, rfl⟩
    omega

/-- A run of `AllocHandle` calls that fits in the cache leaves a key as it is
when no call can produce that key. -/
theorem Fragment.AllocHandles_find (mids : List (Nat × IBitmap)) :
    ∀ (f : Fragment) (k : BitmapHandle),
      (f.cache.MaxEntries = 0 ∨ f.cache.ll.length + mids.length ≤ f.cache.MaxEntries) →
      (∀ j, j < mids.length → k % 1024 ≠ (f.counter + j) % 1024) →
      (f.AllocHandles mids).2.cache.find k = f.cache.find k := by
  induction mids with
  | nil => intro f k _ _; rfl
  | cons m rest ih =>
    intro f k hroom hfresh
    obtain ⟨now, bm⟩ := m
    simp only [List.length_cons] at hroom hfresh
    have hne : k ≠ (f.nextHandle now).1 := by
      intro he
      have h0 := hfresh 0 (by omega)
      rw [he, nextHandle_mod_1024] at h0
      exact h0 rfl
    have hlen := Cache.length_Add_le f.cache (f.nextHandle now).1 bm
    simp only [Fragment.AllocHandles]
    rw [ih (f.AllocHandle now bm).2 k ?_ ?_, Fragment.AllocHandle_cache,
      Cache.find_Add_of_room _ _ _ _ hne (by omega)]
    · rw [Fragment.AllocHandle_cache, Cache.MaxEntries_Add]
      omega
    · intro j hj
      have hj' := hfresh (j + 1) (by omega)
      rw [Fragment.AllocHandle_counter]
      dsimp only [BitmapHandle] at hj' ⊢
      omega

/-- Membership in a union fold. -/
theorem mem_foldl_union (rest : List Bitmap) :
    ∀ (acc : Bitmap) (x : Nat),
      x ∈ rest.foldl (fun acc bm => acc ∪ bm) acc ↔ x ∈ acc ∨ ∃ bm ∈ rest, x ∈ bm := by
  induction rest with
  | nil => intro acc x; simp
  | cons b rest ih =>
    intro acc x
    simp only [List.foldl_cons, ih, Finset.mem_union, List.mem_cons, exists_eq_or_imp]
    tauto

/-- Membership in an intersection fold. -/
theorem mem_foldl_inter (rest : List Bitmap) :
    ∀ (acc : Bitmap) (x : Nat),
      x ∈ rest.foldl (fun acc bm => acc ∩ bm) acc ↔ x ∈ acc ∧ ∀ bm ∈ rest, x ∈ bm := by
  induction rest with
  | nil => intro acc x; simp
  | cons b rest ih =>
    intro acc x
    simp only [List.foldl_cons, ih, Finset.mem_inter, List.mem_cons, forall_eq_or_imp]
    tauto

/-- The fold `unionFold` is the set union of the listed bitmaps. -/
theorem mem_unionFold (bms : List Bitmap) (x : Nat) :
    x ∈ unionFold bms ↔ ∃ bm ∈ bms, x ∈ bm := by
  cases bms with
  | nil => simp [unionFold]
  | cons b rest => simp [unionFold, mem_foldl_union]

/-- The fold `intersectFold` is the set intersection of the listed bitmaps. -/
theorem mem_intersectFold (first : Bitmap) (rest : List Bitmap) (x : Nat) :
    x ∈ intersectFold first rest ↔ ∀ bm ∈ first :: rest, x ∈ bm := by
  simp [intersectFold, mem_foldl_inter]

/-- The loop of `union` past its first iteration, on cached handles: it folds
`Union` over their bitmaps and changes the recency order only. -/
theorem Fragment.unionLoop_cached (handles : List BitmapHandle) :
    ∀ (bms : List Bitmap) (f : Fragment) (acc : Bitmap) (i : Nat), i ≠ 0 →
      List.Forall₂ (fun h bm => f.cache.find h = some (some bm)) handles bms →
      ∃ f', f.unionLoop acc i handles = .ok (bms.foldl Union acc, f') ∧
        f'.counter = f.counter ∧ f'.slice = f.slice ∧
        ∀ k, f'.cache.find k = f.cache.find k := by
  induction handles with
  | nil =>
    intro bms f acc i _ hall
    cases hall
    exact ⟨f, rfl, rfl, rfl, fun _ => rfl⟩
  | cons h rest ih =>
    intro bms f acc i hi hall
    cases hall with
    | cons hh hrest =>
      rename_i bm bms'
      have hrest' : List.Forall₂
          (fun x b => ({ f with cache := (f.cache.Get h).2 } : Fragment).cache.find x
            = some (some b)) rest bms' := by
        refine hrest.imp ?_
        intro a b hab
        simpa [Cache.find_Get] using hab
      obtain ⟨f', hrun, hc, hs, hfind⟩ := ih bms' _ (Union acc bm) (i + 1) (by omega) hrest'
      refine ⟨f', ?_, hc, hs, ?_⟩
      · simp only [Fragment.unionLoop, Fragment.getBitmap_hit f h bm hh, hi, if_false]
        exact hrun
      · intro k
        rw [hfind k]
        exact Cache.find_Get _ _ _

/-- The loop of `intersect` past its first iteration, on cached handles: it
folds `Intersection` over their bitmaps and changes the recency order only. -/
theorem Fragment.intersectLoop_cached (handles : List BitmapHandle) :
    ∀ (bms : List Bitmap) (f : Fragment) (acc : Bitmap) (i : Nat), i ≠ 0 →
      List.Forall₂ (fun h bm => f.cache.find h = some (some bm)) handles bms →
      ∃ f', f.intersectLoop (some acc) i handles = .ok (some (bms.foldl Intersection acc), f') ∧
        f'.counter = f.counter ∧ f'.slice = f.slice ∧
        ∀ k, f'.cache.find k = f.cache.find k := by
  induction handles with
  | nil =>
    intro bms f acc i _ hall
    cases hall
    exact ⟨f, rfl, rfl, rfl, fun _ => rfl⟩
  | cons h rest ih =>
    intro bms f acc i hi hall
    cases hall with
    | cons hh hrest =>
      rename_i bm bms'
      have hrest' : List.Forall₂
          (fun x b => ({ f with cache := (f.cache.Get h).2 } : Fragment).cache.find x
            = some (some b)) rest bms' := by
        refine hrest.imp ?_
        intro a b hab
        simpa [Cache.find_Get] using hab
      obtain ⟨f', hrun, hc, hs, hfind⟩ :=
        ih bms' _ (Intersection acc bm) (i + 1) (by omega) hrest'
      refine ⟨f', ?_, hc, hs, ?_⟩
      · simp only [Fragment.intersectLoop, Fragment.getBitmap_hit f h bm hh, hi, if_false]
        exact hrun
      · intro k
        rw [hfind k]
        exact Cache.find_Get _ _ _

/-- The whole loop of `union` on cached handles computes `unionFold`. -/
theorem Fragment.unionLoop_start (f : Fragment) (handles : List BitmapHandle)
    (bms : List Bitmap)
    (hall : List.Forall₂ (fun h bm => f.cache.find h = some (some bm)) handles bms) :
    ∃ f', f.unionLoop NewBitmap 0 handles = .ok (unionFold bms, f') ∧
      f'.counter = f.counter ∧ f'.slice = f.slice ∧
      ∀ k, f'.cache.find k = f.cache.find k := by
  cases hall with
  | nil => exact ⟨f, rfl, rfl, rfl, fun _ => rfl⟩
  | cons hh hrest =>
    rename_i h bm rest bms'
    have hrest' : List.Forall₂
        (fun x b => ({ f with cache := (f.cache.Get h).2 } : Fragment).cache.find x
          = some (some b)) rest bms' := by
      refine hrest.imp ?_
      intro a b hab
      simpa [Cache.find_Get] using hab
    obtain ⟨f', hrun, hc, hs, hfind⟩ :=
      Fragment.unionLoop_cached rest bms' _ bm 1 (by omega) hrest'
    refine ⟨f', ?_, hc, hs, ?_⟩
    · simp only [Fragment.unionLoop, Fragment.getBitmap_hit f h bm hh, if_true]
      exact hrun
    · intro k
      rw [hfind k]
      exact Cache.find_Get _ _ _

/-- The whole loop of `intersect` on a non-empty list of cached handles
computes `intersectFold`. -/
theorem Fragment.intersectLoop_start (f : Fragment) (h : BitmapHandle)
    (rest : List BitmapHandle) (bm : Bitmap) (bms : List Bitmap)
    (hall : List.Forall₂ (fun h bm => f.cache.find h = some (some bm)) (h :: rest) (bm :: bms)) :
    ∃ f', f.intersectLoop none 0 (h :: rest) = .ok (some (intersectFold bm bms), f') ∧
      f'.counter = f.counter ∧ f'.slice = f.slice ∧
      ∀ k, f'.cache.find k = f.cache.find k := by
  cases hall with
  | cons hh hrest =>
    have hrest' : List.Forall₂
        (fun x b => ({ f with cache := (f.cache.Get h).2 } : Fragment).cache.find x
          = some (some b)) rest bms := by
      refine hrest.imp ?_
      intro a b hab
      simpa [Cache.find_Get] using hab
    obtain ⟨f', hrun, hc, hs, hfind⟩ :=
      Fragment.intersectLoop_cached rest bms _ (Clone bm) 1 (by omega) hrest'
    refine ⟨f', ?_, hc, hs, ?_⟩
    · simp only [Fragment.intersectLoop, Fragment.getBitmap_hit f h bm hh, if_true]
      exact hrun
    · intro k
      rw [hfind k]
      exact Cache.find_Get _ _ _

/-- The result of `intersect [h1, h2]` on cached handles: the first operand is
among the two most recently used entries when the result is stored. -/
theorem Fragment.intersect_pair (now : Nat) (f : Fragment) (h1 h2 : BitmapHandle)
    (b1 b2 : Bitmap) (hc1 : f.cache.find h1 = some (some b1))
    (hc2 : f.cache.find h2 = some (some b2)) :
    ∃ front back,
      f.intersect now [h1, h2] = .ok ((f.nextHandle now).1,
        { f with
          counter := (f.counter + 1) % 2 ^ 64
          cache := ({ f.cache with ll := front ++ back } : Cache).Add (f.nextHandle now).1
            (some (Intersection (Clone b1) b2)) }) ∧
      front.length ≤ 2 ∧
      (front.find? (fun e => e.1 == h1)).map (fun e => e.2) = some (some b1) := by
  have hc2' : ({ f with cache := (f.cache.Get h1).2 } : Fragment).cache.find h2
      = some (some b2) := by
    simpa [Cache.find_Get] using hc2
  have hrun : f.intersect now [h1, h2] = .ok ((f.nextHandle now).1,
      { f with
        counter := (f.counter + 1) % 2 ^ 64
        cache := ({ f.cache with ll := (h2, some b2) ::
            ((h1, some b1) :: f.cache.others h1).filter (fun e => !(e.1 == h2)) } : Cache).Add
          (f.nextHandle now).1 (some (Intersection (Clone b1) b2)) }) := by
    simp only [Fragment.intersect, Fragment.intersectLoop, Fragment.getBitmap_hit f h1 b1 hc1,
      Fragment.getBitmap_hit _ h2 b2 hc2', if_true]
    simp only [Cache.Get_hit _ _ _ hc1]
    rw [Cache.Get_hit _ h2 (some b2) (by simpa [Cache.Get_hit _ _ _ hc1] using hc2')]
    rfl
  by_cases he : h1 = h2
  · subst he
    have hb : b2 = b1 := by
      rw [hc1] at hc2
      exact (Option.some.inj (Option.some.inj hc2)).symm
    subst hb
    exact ⟨[(h1, some b2)], _, hrun, by simp, by simp⟩
  · have h12 : (h1 == h2) = false := by simpa using he
    have h21 : (h2 == h1) = false := by
      simp only [beq_eq_false_iff_ne, ne_eq]
      exact fun h' => he h'.symm
    refine ⟨[(h2, some b2), (h1, some b1)], (f.cache.others h1).filter (fun e => !(e.1 == h2)),
      ?_, by simp, ?_⟩
    · rw [hrun, List.filter_cons]
      simp [h12]
    · simp [List.find?_cons, h21]

/-- The loop of `union` panics when a listed handle is absent. -/
theorem Fragment.unionLoop_absent (handles : List BitmapHandle) :
    ∀ (f : Fragment) (acc : Bitmap) (i : Nat),
      (∃ h ∈ handles, f.cache.find h = none) → ∃ p, f.unionLoop acc i handles = .error p := by
  induction handles with
  | nil => intro f acc i ⟨h, hmem, _⟩; simp at hmem
  | cons id rest ih =>
    intro f acc i ⟨h, hmem, habs⟩
    cases hid : f.cache.find id with
    | none =>
      exact ⟨.interfaceConversion,
        by simp only [Fragment.unionLoop, Fragment.getBitmap_miss f id hid]⟩
    | some v =>
      cases v with
      | none =>
        exact ⟨.interfaceConversion,
          by simp only [Fragment.unionLoop, Fragment.getBitmap_nil f id hid]⟩
      | some bm =>
        have hrest : ∃ x ∈ rest,
            ({ f with cache := (f.cache.Get id).2 } : Fragment).cache.find x = none := by
          rcases List.mem_cons.1 hmem with rfl | hin
          · rw [hid] at habs
            cases habs
          · exact ⟨h, hin, by simpa [Cache.find_Get] using habs⟩
        simp only [Fragment.unionLoop, Fragment.getBitmap_hit f id bm hid]
        split
        · exact ih _ _ _ hrest
        · exact ih _ _ _ hrest

/-- The loop of `intersect` panics when a listed handle is absent. -/
theorem Fragment.intersectLoop_absent (handles : List BitmapHandle) :
    ∀ (f : Fragment) (acc : IBitmap) (i : Nat),
      (∃ h ∈ handles, f.cache.find h = none) →
      ∃ p, f.intersectLoop acc i handles = .error p := by
  induction handles with
  | nil => intro f acc i ⟨h, hmem, _⟩; simp at hmem
  | cons id rest ih =>
    intro f acc i ⟨h, hmem, habs⟩
    cases hid : f.cache.find id with
    | none =>
      exact ⟨.interfaceConversion,
        by simp only [Fragment.intersectLoop, Fragment.getBitmap_miss f id hid]⟩
    | some v =>
      cases v with
      | none =>
        exact ⟨.interfaceConversion,
          by simp only [Fragment.intersectLoop, Fragment.getBitmap_nil f id hid]⟩
      | some bm =>
        have hrest : ∃ x ∈ rest,
            ({ f with cache := (f.cache.Get id).2 } : Fragment).cache.find x = none := by
          rcases List.mem_cons.1 hmem with rfl | hin
          · rw [hid] at habs
            cases habs
          · exact ⟨h, hin, by simpa [Cache.find_Get] using habs⟩
        simp only [Fragment.intersectLoop, Fragment.getBitmap_hit f id bm hid]
        split
        · exact ih _ _ _ hrest
        · cases acc with
          | none => exact ⟨_, rfl⟩
          | some r => exact ih _ _ _ hrest

/-- Whenever a listed handle is absent from the cache, `union` and `intersect`
end in a run-time panic: no value is returned to the caller. -/
theorem Fragment.union_intersect_panic_of_absent (now : Nat) (f : Fragment)
    (handles : List BitmapHandle) (habsent : ∃ h ∈ handles, f.cache.find h = none) :
    (∃ p, f.union now handles = .error p) ∧ (∃ p, f.intersect now handles = .error p) := by
  obtain ⟨p, hp⟩ := Fragment.unionLoop_absent handles f NewBitmap 0 habsent
  obtain ⟨q, hq⟩ := Fragment.intersectLoop_absent handles f none 0 habsent
  exact ⟨⟨p, by simp only [Fragment.union, hp]⟩, ⟨q, by simp only [Fragment.intersect, hq]⟩⟩

/-! ## Unknown fragments -/

/-- C1: for a fragment id that is not registered, each of the eight container
operations returns the zero value of its result type together with a non-nil
error, and the container (the registry and every fragment in it) is
unchanged. -/
theorem unknown_fragment_is_an_error (w : World) (self : FragmentContainer) (frag_id : SUUID)
    (hmiss : self.GetFragment frag_id = none) :
    self.Empty w frag_id = .ok ((0, some (GoError.New "Invalid Bitmap Handle")), self) ∧
    (∀ bh, self.Intersect w frag_id bh
      = .ok ((0, some (GoError.New "Invalid Bitmap Handle")), self)) ∧
    (∀ bh, self.Union w frag_id bh
      = .ok ((0, some (GoError.New "Invalid Bitmap Handle")), self)) ∧
    (∀ bitmap_id, self.Get w frag_id bitmap_id
      = .ok ((0, some (GoError.New "Invalid Bitmap Handle")), self)) ∧
    (∀ bitmap, self.Count w frag_id bitmap
      = .ok ((0, some (GoError.New "Invalid Bitmap Handle")), self)) ∧
    (∀ bh, self.GetBytes w frag_id bh
      = .ok (([], some (GoError.New "Invalid Bitmap Handle")), self)) ∧
    (∀ bytes, self.FromBytes w frag_id bytes
      = .ok ((0, some (GoError.New "Invalid Bitmap Handle")), self)) ∧
    (∀ bitmap_id pos, self.SetBit w frag_id bitmap_id pos
      = .ok ((false, some (GoError.New "Invalid Bitmap Handle")), self)) := by
  refine ⟨?_, ?_, ?_, ?_, ?_, ?_, ?_, ?_⟩
  · simp only [FragmentContainer.Empty, hmiss]
  · intro bh; simp only [FragmentContainer.Intersect, hmiss]
  · intro bh; simp only [FragmentContainer.Union, hmiss]
  · intro bitmap_id; simp only [FragmentContainer.Get, hmiss]
  · intro bitmap; simp only [FragmentContainer.Count, hmiss]
  · intro bh; simp only [FragmentContainer.GetBytes, hmiss]
  · intro bytes; simp only [FragmentContainer.FromBytes, hmiss]
  · intro bitmap_id pos; simp only [FragmentContainer.SetBit, hmiss]

/-- C1, witness: the id 8 is not registered in a container that holds the
fragment 7. -/
theorem unknown_fragment_is_an_error_witness :
    oneFragment.GetFragment 8 = none ∧
    oneFragment.Empty sampleWorld 8
      = .ok ((0, some (GoError.New "Invalid Bitmap Handle")), oneFragment) ∧
    oneFragment.Count sampleWorld 8 5372449108801883136
      = .ok ((0, some (GoError.New "Invalid Bitmap Handle")), oneFragment) ∧
    oneFragment.SetBit sampleWorld 8 7 3
      = .ok ((false, some (GoError.New "Invalid Bitmap Handle")), oneFragment) :=
  ⟨by decide,
    (unknown_fragment_is_an_error sampleWorld oneFragment 8 (by decide)).1,
    (unknown_fragment_is_an_error sampleWorld oneFragment 8 (by decide)).2.2.2.2.1 _,
    (unknown_fragment_is_an_error sampleWorld oneFragment 8 (by decide)).2.2.2.2.2.2.2 _ _⟩

/-! ## Absent handles -/

/-- C2, the code at the failing input: on a fragment as `NewFragment` makes it,
the handle 1 was never issued; the lookup reports `found = false`, and both
`union [1]` and `intersect [1]` end in the panic of the type assertion in
`getBitmap` instead of returning an error; the same happens when the absent
handle follows a cached one. -/
theorem union_intersect_panic_on_unknown_handle :
    (freshFragment.cache.Get 1).1 = (none, false) ∧
    freshFragment.getBitmap 1 = .error .interfaceConversion ∧
    freshFragment.union clockA [1] = .error .interfaceConversion ∧
    freshFragment.intersect clockA [1] = .error .interfaceConversion ∧
    twoHandles.union clockA [5372449108801883136, 1] = .error .interfaceConversion ∧
    twoHandles.intersect clockA [5372449108801883136, 1] = .error .interfaceConversion := by
  decide

/-! ## Handle allocation -/

/-- C3: at most 1024 consecutive calls of `nextHandle` on one fragment (any
slice number, any starting counter) whose clock readings have the same low 41
bits return as many handles as calls, pairwise distinct (they already differ in
the counter field). -/
theorem consecutive_handles_distinct (f : Fragment) (clocks : List Nat)
    (hN : clocks.length ≤ 1024)
    (_hT : ∀ t ∈ clocks, ∀ t' ∈ clocks, t % 2 ^ 41 = t' % 2 ^ 41) :
    (f.nextHandles clocks).1.length = clocks.length ∧ (f.nextHandles clocks).1.Nodup :=
  ⟨by
    clear hN _hT
    induction clocks generalizing f with
    | nil => rfl
    | cons t rest ih => simp [Fragment.nextHandles, ih], nextHandles_nodup clocks f hN⟩

/-- C3, witness: three consecutive allocations at one clock reading. -/
theorem consecutive_handles_distinct_witness :
    [clockA, clockA, clockA].length ≤ 1024 ∧
    (freshFragment.nextHandles [clockA, clockA, clockA]).1.length = 3 ∧
    (freshFragment.nextHandles [clockA, clockA, clockA]).1.Nodup :=
  ⟨by decide,
    consecutive_handles_distinct freshFragment [clockA, clockA, clockA] (by decide)
      (by decide)⟩

/-- C4 (as amended): for a slice number below `2 ^ 13`, the handle returned by
`nextHandle` has the counter modulo 1024 in bits 9-0, the slice number in bits
22-10 and the low 41 bits of the clock reading in bits 63-23; it is the sum of
the three fields, and the counter afterwards is the old one plus one modulo
`2 ^ 64`. -/
theorem nextHandle_fields (t s c : Nat) (f : Fragment) (hs : s < 2 ^ 13)
    (hslice : f.slice = (s : Int)) (hc : f.counter = c) :
    (f.nextHandle t).1 % 2 ^ 10 = c % 1024 ∧
    (f.nextHandle t).1 / 2 ^ 10 % 2 ^ 13 = s ∧
    (f.nextHandle t).1 / 2 ^ 23 = t % 2 ^ 41 ∧
    (f.nextHandle t).1 < 2 ^ 64 ∧
    (f.nextHandle t).1 = t * 2 ^ 23 % 2 ^ 64 + s * 2 ^ 10 + c % 1024 ∧
    (f.nextHandle t).2.counter = (c + 1) % 2 ^ 64 ∧
    (c + 1 < 2 ^ 64 → (f.nextHandle t).2.counter = c + 1) := by
  have hv := nextHandle_layout t s c f hs hslice hc
  have hcnt : (f.nextHandle t).2.counter = (c + 1) % 2 ^ 64 := by
    rw [nextHandle_snd, hc]
  have ht : t * 2 ^ 23 % 2 ^ 64 = 2 ^ 23 * (t % 2 ^ 41) := by omega
  dsimp only [BitmapHandle] at hv ⊢
  refine ⟨?_, ?_, ?_, ?_, ?_, hcnt, ?_⟩
  · rw [hv]; omega
  · rw [hv]; omega
  · rw [hv]; omega
  · rw [hv]; omega
  · rw [hv, ht]; omega
  · intro hlt
    rw [hcnt]
    exact Nat.mod_eq_of_lt hlt

/-- C4, counterexample: at the counter value `2 ^ 64 - 1` the counter after
`nextHandle` is 0, not the old value plus one. -/
theorem nextHandle_counter_wraps :
    lastCounter.counter = 2 ^ 64 - 1 ∧
    (lastCounter.nextHandle clockA).2.counter = 0 ∧
    (lastCounter.nextHandle clockA).2.counter ≠ lastCounter.counter + 1 := by
  decide

/-- C4, witness: the fields of the first handle of a fresh fragment of slice
3. -/
theorem nextHandle_fields_witness :
    (3 : Nat) < 2 ^ 13 ∧
    (freshFragment.nextHandle clockA).1 = clockA * 2 ^ 23 % 2 ^ 64 + 3 * 2 ^ 10 + 0 % 1024 ∧
    (freshFragment.nextHandle clockA).2.counter = (0 + 1) % 2 ^ 64 :=
  ⟨by decide,
    (nextHandle_fields clockA 3 0 freshFragment (by decide) (by decide) (by decide)).2.2.2.2.1,
    (nextHandle_fields clockA 3 0 freshFragment (by decide) (by decide) (by decide)).2.2.2.2.2.1⟩

/-- C8 (as amended): `AllocHandle` returns the handle made by `nextHandle`, a
lookup of that handle right afterwards finds the bitmap just stored, and the
counter has advanced by one modulo `2 ^ 64`; `NewHandle` returns a handle that
resolves to the bitmap the shard storage returned. -/
theorem AllocHandle_then_getBitmap (now : Nat) (f : Fragment) (bm : Bitmap) (bitmap_id : Nat) :
    (f.AllocHandle now (some bm)).1 = (f.nextHandle now).1 ∧
    (∃ g, (f.AllocHandle now (some bm)).2.getBitmap (f.AllocHandle now (some bm)).1
      = .ok ((bm, true), g)) ∧
    (f.AllocHandle now (some bm)).2.counter = (f.counter + 1) % 2 ^ 64 ∧
    (f.counter + 1 < 2 ^ 64 → (f.AllocHandle now (some bm)).2.counter = f.counter + 1) ∧
    (f.NewHandle now bitmap_id).1 = (f.nextHandle now).1 ∧
    (∀ stored, f.impl.Get bitmap_id = some stored →
      ∃ g, (f.NewHandle now bitmap_id).2.getBitmap (f.NewHandle now bitmap_id).1
        = .ok ((stored, true), g)) := by
  refine ⟨rfl, ⟨_, Fragment.getBitmap_hit _ _ _ (Fragment.AllocHandle_find now f _)⟩, rfl, ?_,
    rfl, ?_⟩
  · intro hlt
    rw [Fragment.AllocHandle_counter]
    exact Nat.mod_eq_of_lt hlt
  · intro stored hstored
    refine ⟨_, Fragment.getBitmap_hit _ _ _ ?_⟩
    unfold Fragment.NewHandle
    rw [hstored]
    exact Fragment.AllocHandle_find now f _

/-- C8, counterexample: at the counter value `2 ^ 64 - 1` the counter after
`AllocHandle` is 0: it has not increased by one. -/
theorem AllocHandle_counter_wraps :
    lastCounter.counter = 2 ^ 64 - 1 ∧
    (lastCounter.AllocHandle clockA (some ∅)).2.counter = 0 ∧
    (lastCounter.AllocHandle clockA (some ∅)).2.counter ≠ lastCounter.counter + 1 := by
  decide

/-- C8, witness: a bitmap allocated on a fresh fragment is found again. -/
theorem AllocHandle_then_getBitmap_witness :
    (freshFragment.AllocHandle clockA (some {1, 2})).1 = (freshFragment.nextHandle clockA).1 ∧
    (freshFragment.AllocHandle clockA (some {1, 2})).2.counter = (0 + 1) % 2 ^ 64 ∧
    ∃ g, (freshFragment.AllocHandle clockA (some {1, 2})).2.getBitmap
      (freshFragment.AllocHandle clockA (some {1, 2})).1 = .ok (({1, 2}, true), g) :=
  ⟨(AllocHandle_then_getBitmap clockA freshFragment {1, 2} 7).1,
    (AllocHandle_then_getBitmap clockA freshFragment {1, 2} 7).2.2.1,
    (AllocHandle_then_getBitmap clockA freshFragment {1, 2} 7).2.1⟩

/-- C10: two calls of `AllocHandle` on one fragment with exactly 1023
allocations between them, whose clock readings have the same low 41 bits,
return the same handle, and after the second call that handle resolves to the
second bitmap: the entry of the first is replaced. -/
theorem AllocHandle_wraps_after_1024 (f : Fragment) (t1 t2 : Nat) (a b : Bitmap)
    (mids : List (Nat × IBitmap)) (hapart : mids.length = 1023)
    (hstamp : t1 % 2 ^ 41 = t2 % 2 ^ 41) :
    ∃ g,
      (((f.AllocHandle t1 (some a)).2.AllocHandles mids).2.AllocHandle t2 (some b)).1
        = (f.AllocHandle t1 (some a)).1 ∧
      (f.AllocHandle t1 (some a)).2.cache.find (f.AllocHandle t1 (some a)).1 = some (some a) ∧
      (((f.AllocHandle t1 (some a)).2.AllocHandles mids).2.AllocHandle t2 (some b)).2.cache.find
        (f.AllocHandle t1 (some a)).1 = some (some b) ∧
      (((f.AllocHandle t1 (some a)).2.AllocHandles mids).2.AllocHandle t2 (some b)).2.getBitmap
        (f.AllocHandle t1 (some a)).1 = .ok ((b, true), g) := by
  obtain ⟨hc, hs⟩ := Fragment.AllocHandles_counter mids (f.AllocHandle t1 (some a)).2
  rw [Fragment.AllocHandle_counter, hapart] at hc
  rw [Fragment.AllocHandle_slice] at hs
  have hsame :
      (((f.AllocHandle t1 (some a)).2.AllocHandles mids).2.AllocHandle t2 (some b)).1
        = (f.AllocHandle t1 (some a)).1 := by
    rw [Fragment.AllocHandle_fst, Fragment.AllocHandle_fst]
    refine Fragment.nextHandle_wrap t1 t2 f _ hstamp hs ?_
    rw [hc]
    omega
  have hfind :
      (((f.AllocHandle t1 (some a)).2.AllocHandles mids).2.AllocHandle t2 (some b)).2.cache.find
        (f.AllocHandle t1 (some a)).1 = some (some b) := by
    rw [← hsame]
    exact Fragment.AllocHandle_find t2 _ _
  exact ⟨_, hsame, Fragment.AllocHandle_find t1 f _, hfind, Fragment.getBitmap_hit _ _ _ hfind⟩

/-- C10, witness: on a fresh fragment, `{1, 2}` is allocated, 1023 further
allocations follow, and `{2, 3}` is allocated at a clock reading with the same
low 41 bits: the handle is the same and now resolves to `{2, 3}`. -/
theorem AllocHandle_wraps_after_1024_witness :
    (fillers 1023).length = 1023 ∧ clockA % 2 ^ 41 = (clockA + 2 ^ 41) % 2 ^ 41 ∧
    ∃ g,
      (((freshFragment.AllocHandle clockA (some {1, 2})).2.AllocHandles
          (fillers 1023)).2.AllocHandle (clockA + 2 ^ 41) (some {2, 3})).1
        = (freshFragment.AllocHandle clockA (some {1, 2})).1 ∧
      (freshFragment.AllocHandle clockA (some {1, 2})).2.cache.find
        (freshFragment.AllocHandle clockA (some {1, 2})).1 = some (some {1, 2}) ∧
      (((freshFragment.AllocHandle clockA (some {1, 2})).2.AllocHandles
          (fillers 1023)).2.AllocHandle (clockA + 2 ^ 41) (some {2, 3})).2.cache.find
        (freshFragment.AllocHandle clockA (some {1, 2})).1 = some (some {2, 3}) ∧
      (((freshFragment.AllocHandle clockA (some {1, 2})).2.AllocHandles
          (fillers 1023)).2.AllocHandle (clockA + 2 ^ 41) (some {2, 3})).2.getBitmap
        (freshFragment.AllocHandle clockA (some {1, 2})).1 = .ok (({2, 3}, true), g) :=
  ⟨List.length_replicate 1023 _, by decide,
    AllocHandle_wraps_after_1024 freshFragment clockA (clockA + 2 ^ 41) {1, 2} {2, 3}
      (fillers 1023) (List.length_replicate 1023 _) (by decide)⟩

/-! ## Union and intersection -/

/-- C6 (as amended): for handles under each of which the cache holds a
bitmap, not the `nil` value (the empty list included), `union` returns the
handle allocated by `nextHandle`, and the cache then holds under it the
left-to-right union fold of the handles' bitmaps, which is their set union; its
count is at least the count of every operand, and the union of a handle with
itself has the count of that handle. -/
theorem union_of_cached (now : Nat) (f : Fragment) (handles : List BitmapHandle)
    (bms : List Bitmap)
    (hcached : List.Forall₂ (fun h bm => f.cache.find h = some (some bm)) handles bms) :
    ∃ f' g,
      f.union now handles = .ok ((f.nextHandle now).1, f') ∧
      f'.counter = (f.counter + 1) % 2 ^ 64 ∧
      f'.cache.find (f.nextHandle now).1 = some (some (unionFold bms)) ∧
      f'.getBitmap (f.nextHandle now).1 = .ok ((unionFold bms, true), g) ∧
      (∀ x, x ∈ unionFold bms ↔ ∃ bm ∈ bms, x ∈ bm) ∧
      (∀ bm ∈ bms, bm.Count ≤ (unionFold bms).Count) ∧
      (∀ b1 b2, bms = [b1, b2] → max b1.Count b2.Count ≤ (unionFold bms).Count) ∧
      (∀ b, bms = [b, b] → (unionFold bms).Count = b.Count) := by
  obtain ⟨f1, hrun, hc, hs, _⟩ := Fragment.unionLoop_start f handles bms hcached
  have hh : (f1.nextHandle now).1 = (f.nextHandle now).1 :=
    Fragment.nextHandle_congr now f f1 hc hs
  have hfind : (f1.AllocHandle now (some (unionFold bms))).2.cache.find (f.nextHandle now).1
      = some (some (unionFold bms)) := by
    rw [← hh, ← Fragment.AllocHandle_fst now f1 (some (unionFold bms))]
    exact Fragment.AllocHandle_find now f1 _
  have hsub : ∀ bm ∈ bms, bm ⊆ unionFold bms := fun bm hbm x hx =>
    (mem_unionFold bms x).2 ⟨bm, hbm, hx⟩
  refine ⟨(f1.AllocHandle now (some (unionFold bms))).2, _, ?_, ?_, hfind,
    Fragment.getBitmap_hit _ _ _ hfind, mem_unionFold bms,
    fun bm hbm => Finset.card_le_card (hsub bm hbm), ?_, ?_⟩
  · simp only [Fragment.union, hrun]
    rw [← hh, ← Fragment.AllocHandle_fst now f1 (some (unionFold bms))]
  · rw [Fragment.AllocHandle_counter, hc]
  · intro b1 b2 hb
    exact max_le (Finset.card_le_card (hsub b1 (by simp [hb])))
      (Finset.card_le_card (hsub b2 (by simp [hb])))
  · intro b hb
    simp [hb, unionFold]

/-- C6, counterexample: `Intersect` with the empty handle list returns a
handle under which the cache holds the `nil` value; the handle is present (the
lookup reports `found = true`), and `union` on it ends in the panic of the type
assertion in `getBitmap` instead of returning a handle. -/
theorem union_panics_on_nil_entry :
    oneFragment.Intersect sampleWorld 7 []
      = .ok ((5372449108801883136, none), afterEmptyIntersect) ∧
    (afterEmptyIntersect.GetFragment 7).map
      (fun f => (f.cache.Get 5372449108801883136).1) = some (none, true) ∧
    (afterEmptyIntersect.GetFragment 7).map
      (fun f => f.union clockA [5372449108801883136]) = some (.error .interfaceConversion) ∧
    afterEmptyIntersect.Union sampleWorld 7 [5372449108801883136]
      = .error .interfaceConversion := by
  decide

/-- C6, witness: the union of the two cached handles of `twoHandles` is
`{1, 2, 3}`. -/
theorem union_of_cached_witness :
    ∃ f', twoHandles.union clockA [5372449108801883136, 5372449108801883137]
        = .ok ((twoHandles.nextHandle clockA).1, f') ∧
      f'.cache.find (twoHandles.nextHandle clockA).1 = some (some {1, 2, 3}) :=
  (union_of_cached clockA twoHandles [5372449108801883136, 5372449108801883137]
    [{1, 2}, {2, 3}]
    (List.Forall₂.cons (by decide) (List.Forall₂.cons (by decide) List.Forall₂.nil))).elim
    fun f' hf' => hf'.elim fun _ h => ⟨f', h.1, h.2.2.1.trans (by decide)⟩

/-- C7 (as amended): for a non-empty list of handles under each of which the
cache holds a bitmap, not the `nil` value, `intersect` returns the handle
allocated by `nextHandle`, and the cache then holds under it the left-to-right
intersection fold started from a clone of the first bitmap, which is the set
intersection of the handles' bitmaps; its count is at most the count of every
operand, and the intersection of a handle with itself has the count of that
handle. -/
theorem intersect_of_cached (now : Nat) (f : Fragment) (h : BitmapHandle)
    (rest : List BitmapHandle) (bm : Bitmap) (bms : List Bitmap)
    (hcached : List.Forall₂ (fun h bm => f.cache.find h = some (some bm))
      (h :: rest) (bm :: bms)) :
    ∃ f' g,
      f.intersect now (h :: rest) = .ok ((f.nextHandle now).1, f') ∧
      f'.counter = (f.counter + 1) % 2 ^ 64 ∧
      f'.cache.find (f.nextHandle now).1 = some (some (intersectFold bm bms)) ∧
      f'.getBitmap (f.nextHandle now).1 = .ok ((intersectFold bm bms, true), g) ∧
      (∀ x, x ∈ intersectFold bm bms ↔ ∀ b ∈ bm :: bms, x ∈ b) ∧
      (∀ b ∈ bm :: bms, (intersectFold bm bms).Count ≤ b.Count) ∧
      (∀ b2, bms = [b2] → (intersectFold bm bms).Count ≤ min bm.Count b2.Count) ∧
      (bms = [bm] → (intersectFold bm bms).Count = bm.Count) := by
  obtain ⟨f1, hrun, hc, hs, _⟩ := Fragment.intersectLoop_start f h rest bm bms hcached
  have hh : (f1.nextHandle now).1 = (f.nextHandle now).1 :=
    Fragment.nextHandle_congr now f f1 hc hs
  have hfind : (f1.AllocHandle now (some (intersectFold bm bms))).2.cache.find
      (f.nextHandle now).1 = some (some (intersectFold bm bms)) := by
    rw [← hh, ← Fragment.AllocHandle_fst now f1 (some (intersectFold bm bms))]
    exact Fragment.AllocHandle_find now f1 _
  have hsub : ∀ b ∈ bm :: bms, intersectFold bm bms ⊆ b := fun b hb x hx =>
    (mem_intersectFold bm bms x).1 hx b hb
  refine ⟨(f1.AllocHandle now (some (intersectFold bm bms))).2, _, ?_, ?_, hfind,
    Fragment.getBitmap_hit _ _ _ hfind, mem_intersectFold bm bms,
    fun b hb => Finset.card_le_card (hsub b hb), ?_, ?_⟩
  · simp only [Fragment.intersect, hrun]
    rw [← hh, ← Fragment.AllocHandle_fst now f1 (some (intersectFold bm bms))]
  · rw [Fragment.AllocHandle_counter, hc]
  · intro b2 hb
    exact le_min (Finset.card_le_card (hsub bm (by simp)))
      (Finset.card_le_card (hsub b2 (by simp [hb])))
  · intro hb
    simp [hb, intersectFold]

/-- C7, counterexample: after `intersect` with the empty handle list, the
returned handle is present in the cache with the `nil` value (the lookup
reports `found = true`), and `intersect` on a non-empty list that contains it,
alone or after a handle that holds a bitmap, ends in the panic of the type
assertion in `getBitmap` instead of returning a handle. -/
theorem intersect_panics_on_nil_entry :
    twoHandles.intersect clockA [] = .ok (5372449108801883138, twoHandlesAndNil) ∧
    (twoHandlesAndNil.cache.Get 5372449108801883136).1 = (some {1, 2}, true) ∧
    (twoHandlesAndNil.cache.Get 5372449108801883138).1 = (none, true) ∧
    twoHandlesAndNil.intersect clockA [5372449108801883138] = .error .interfaceConversion ∧
    twoHandlesAndNil.intersect clockA [5372449108801883136, 5372449108801883138]
      = .error .interfaceConversion := by
  decide

/-- C7, witness: the intersection of the two cached handles of `twoHandles` is
`{2}`. -/
theorem intersect_of_cached_witness :
    ∃ f', twoHandles.intersect clockA [5372449108801883136, 5372449108801883137]
        = .ok ((twoHandles.nextHandle clockA).1, f') ∧
      f'.cache.find (twoHandles.nextHandle clockA).1 = some (some {2}) :=
  (intersect_of_cached clockA twoHandles 5372449108801883136 [5372449108801883137]
    {1, 2} [{2, 3}]
    (List.Forall₂.cons (by decide) (List.Forall₂.cons (by decide) List.Forall₂.nil))).elim
    fun f' hf' => hf'.elim fun _ h => ⟨f', h.1, h.2.2.1.trans (by decide)⟩

/-- C5 (as amended): when `h1` and `h2` are cached, the cache has room for at
least three entries (or no limit), and the handle allocated for the result is
not `h1`, then after `intersect [h1, h2]` the cache still maps `h1` to the
bitmap it held before. -/
theorem intersect_keeps_first_operand (now : Nat) (f : Fragment) (h1 h2 : BitmapHandle)
    (b1 b2 : Bitmap) (hc1 : f.cache.find h1 = some (some b1))
    (hc2 : f.cache.find h2 = some (some b2))
    (hcap : f.cache.MaxEntries = 0 ∨ 3 ≤ f.cache.MaxEntries)
    (hfresh : (f.nextHandle now).1 ≠ h1) :
    ∃ f' g,
      f.intersect now [h1, h2] = .ok ((f.nextHandle now).1, f') ∧
      f'.cache.find h1 = some (some b1) ∧
      f'.getBitmap h1 = .ok ((b1, true), g) := by
  obtain ⟨front, back, hrun, hlen, hfront⟩ := Fragment.intersect_pair now f h1 h2 b1 b2 hc1 hc2
  have hfind : (({ f.cache with ll := front ++ back } : Cache).Add (f.nextHandle now).1
      (some (Intersection (Clone b1) b2))).find h1 = some (some b1) :=
    Cache.find_Add_of_recent _ _ _ _ _ front back rfl hfront
      (by rcases hcap with h0 | h3
          · exact Or.inl h0
          · exact Or.inr (by simp only; omega))
      (fun he => hfresh he.symm)
  exact ⟨_, _, hrun, hfind, Fragment.getBitmap_hit _ _ _ hfind⟩

/-- C5, counterexample: in the fragment reached from `NewFragment` by 1024
allocations, an `intersect` of the first two handles that reads the same clock
value is given the first handle again for its result, and the cache entry of
the first operand, `{1, 2}` before the call, is `{2}` after it. -/
theorem intersect_overwrites_first_operand :
    wrappedFragment.cache.find 5372449108801883136 = some (some {1, 2}) ∧
    wrappedFragment.cache.find 5372449108801883137 = some (some {2, 3}) ∧
    ∃ f', wrappedFragment.intersect clockA
        [5372449108801883136, 5372449108801883137] = .ok (5372449108801883136, f') ∧
      f'.cache.find 5372449108801883136 = some (some {2}) ∧
      Bitmap.Count {2} ≠ Bitmap.Count {1, 2} := by
  have hB1 : twoHandles.cache.find 5372449108801883136 = some (some {1, 2}) := by decide
  have hB2 : twoHandles.cache.find 5372449108801883137 = some (some {2, 3}) := by decide
  have hfill : (fillers 1022).length = 1022 := List.length_replicate 1022 _
  have hroom : twoHandles.cache.MaxEntries = 0 ∨
      twoHandles.cache.ll.length + (fillers 1022).length ≤ twoHandles.cache.MaxEntries := by
    right
    rw [hfill]
    decide
  have hcnt : twoHandles.counter = 2 := by decide
  have h1 : wrappedFragment.cache.find 5372449108801883136 = some (some {1, 2}) := by
    unfold wrappedFragment
    rw [Fragment.AllocHandles_find _ _ _ hroom, hB1]
    intro j hj
    rw [hfill] at hj
    rw [hcnt]
    dsimp only [BitmapHandle]
    omega
  have h2 : wrappedFragment.cache.find 5372449108801883137 = some (some {2, 3}) := by
    unfold wrappedFragment
    rw [Fragment.AllocHandles_find _ _ _ hroom, hB2]
    intro j hj
    rw [hfill] at hj
    rw [hcnt]
    dsimp only [BitmapHandle]
    omega
  obtain ⟨hc, hs⟩ := Fragment.AllocHandles_counter (fillers 1022) twoHandles
  rw [hfill, hcnt] at hc
  have hs' : wrappedFragment.slice = freshFragment.slice := by
    unfold wrappedFragment
    rw [hs]
    decide
  have hc' : wrappedFragment.counter % 1024 = freshFragment.counter % 1024 := by
    unfold wrappedFragment
    rw [hc]
    decide
  have hh : (wrappedFragment.nextHandle clockA).1 = 5372449108801883136 := by
    have h0 : (freshFragment.nextHandle clockA).1 = 5372449108801883136 := by decide
    rw [← h0]
    exact Fragment.nextHandle_wrap clockA clockA freshFragment wrappedFragment rfl hs' hc'
  obtain ⟨front, back, hrun, _, _⟩ := Fragment.intersect_pair clockA wrappedFragment
    5372449108801883136 5372449108801883137 {1, 2} {2, 3} h1 h2
  rw [hh] at hrun
  refine ⟨h1, h2, _, hrun, ?_, by decide⟩
  simp only [Cache.find_Add_self]
  decide

/-- C5, witness: `intersect` of the two cached handles of `twoHandles`. -/
theorem intersect_keeps_first_operand_witness :
    (twoHandles.nextHandle clockA).1 ≠ 5372449108801883136 ∧
    ∃ f', twoHandles.intersect clockA [5372449108801883136, 5372449108801883137]
        = .ok ((twoHandles.nextHandle clockA).1, f') ∧
      f'.cache.find 5372449108801883136 = some (some {1, 2}) :=
  ⟨by decide,
    (intersect_keeps_first_operand clockA twoHandles 5372449108801883136 5372449108801883137
      {1, 2} {2, 3} (by decide) (by decide) (by decide) (by decide)).elim
      fun f' hf' => hf'.elim fun _ h => ⟨f', h.1, h.2.1⟩⟩

end Index
